import Mathlib

/-!
Verification of the asynchronous video-generation job engine of the Veo3
repository (source: `src/App.tsx`, which bundles the React UI component and
the `geminiService` module holding `VideoGenerationQueue`).

The embedding models, from the source:
  * `retryWithBackoff` (App.tsx lines 599-628): the generic backoff retrier;
  * the poll loop of `executeGeneration` (lines 662-708): steady 15s-cadence
    polling with a 100-iteration cap, staged progress messages, 503 recovery
    and the post-loop timeout / empty-result checks;
  * the download phase (lines 710-736): per-artifact fetch with retries,
    `Promise.all` collection and null-filtering;
  * the outer error-classification catch (lines 741-758);
  * `VideoGenerationQueue.add` / `processQueue` / `getQueueStatus`
    (lines 531-768) as a small transition system over the scheduler state;
  * `handleDeleteJob` of the `App` component (lines 213-215).

Remote calls are modelled by outcome functions (attempt index to result);
sleeps and wall-clock delays carry no observable state beyond the delay
values the retrier computes, which are tracked exactly as rationals
(JS computes `baseDelay * Math.pow(1.5, attempt)`, exact in binary floating
point for the magnitudes involved, so the rational model is faithful).
-/

/-- A JavaScript error value as the service code observes it: an optional
HTTP `status` field, an optional `code` field and a `message` string.
(`new Error(msg)` carries neither `status` nor `code`.) -/
structure Err where
  status : Option Nat
  code : Option Nat
  message : String
deriving DecidableEq, Repr

instance {α : Type} [DecidableEq α] : DecidableEq (Except Err α) := fun a b =>
  match a, b with
  | .ok x, .ok y =>
    match decEq x y with
    | isTrue h => isTrue (by rw [h])
    | isFalse h => isFalse (by intro hc; cases hc; exact h rfl)
  | .error x, .error y =>
    match decEq x y with
    | isTrue h => isTrue (by rw [h])
    | isFalse h => isFalse (by intro hc; cases hc; exact h rfl)
  | .ok _, .error _ => isFalse (by intro hc; cases hc)
  | .error _, .ok _ => isFalse (by intro hc; cases hc)

/-- `error.status === 400 || error.status === 401 || error.status === 403`:
the "don't retry on certain error codes" test of `retryWithBackoff`
(App.tsx line 613). -/
def nonRetryable (e : Err) : Bool :=
  e.status == some 400 || e.status == some 401 || e.status == some 403

/-- Observable outcome of one `retryWithBackoff` run: the final result,
the number of attempts made, and the list of waits (in ms) performed
between attempts, in order. -/
structure RetryResult (α : Type) where
  result : Except Err α
  attempts : Nat
  delays : List ℚ
deriving DecidableEq

/-- The `for (let attempt = 0; attempt <= maxRetries; attempt++)` loop of
`retryWithBackoff` (App.tsx lines 606-625), unrolled as recursion on the
number of retries still allowed (`remaining = maxRetries - attempt`,
so `remaining = 0` exactly when `attempt === maxRetries`).  `fn a` is the
outcome of the wrapped operation on attempt `a`.  On success, done; on a
non-retryable failure or on the final permitted attempt the error is
re-thrown unmodified; otherwise the loop waits
`baseDelay * Math.pow(1.5, attempt)` and retries. -/
def retryLoop {α : Type} (fn : Nat → Except Err α) (baseDelay : ℚ) :
    Nat → Nat → RetryResult α
  | attempt, remaining =>
    match fn attempt with
    | .ok v => ⟨.ok v, 1, []⟩
    | .error e =>
      if nonRetryable e then ⟨.error e, 1, []⟩
      else
        match remaining with
        | 0 => ⟨.error e, 1, []⟩
        | r + 1 =>
          let rest := retryLoop fn baseDelay (attempt + 1) r
          ⟨rest.result, rest.attempts + 1, baseDelay * (3 / 2) ^ attempt :: rest.delays⟩

/-- `retryWithBackoff(fn, maxRetries, baseDelay)` (App.tsx lines 599-628):
run the attempt loop starting at attempt 0 with `maxRetries` retries
remaining. -/
def retryWithBackoff {α : Type} (fn : Nat → Except Err α) (maxRetries : Nat)
    (baseDelay : ℚ) : RetryResult α :=
  retryLoop fn baseDelay 0 maxRetries

/-- One artifact reference as returned by the service:
`videoData.video?.uri` collapsed into a single optional download link
(both a missing `video` and a missing `uri` read as `none`). -/
structure VideoData where
  uri : Option String
deriving DecidableEq, Repr

/-- A remote operation snapshot as the poll loop reads it: the `done` flag
and `operation.response?.generatedVideos` collapsed into one optional list
(a missing `response` or missing `generatedVideos` reads as `none`). -/
structure Operation where
  done : Bool
  response : Option (List VideoData)
deriving DecidableEq, Repr

/-- The mutable locals of the polling section of `executeGeneration`
(App.tsx lines 662-699): the current operation snapshot, `pollAttempts`,
`messageIndex`, and the sequence of messages sent to `onProgress` so far
(the progress sink's view). -/
structure PollState where
  operation : Operation
  pollAttempts : Nat
  messageIndex : Nat
  progressLog : List String
deriving DecidableEq, Repr

/-- The fixed staged progress messages (App.tsx lines 662-668). -/
def progressMessages : List String :=
  ["🔍 Analyzing your prompt...",
   "🎬 Storyboarding the scenes...",
   "🎨 Rendering frames with correct aspect ratio...",
   "✨ Adding final touches...",
   "🚀 Almost there..."]

def defaultMsg : String := ""

/-- Emitted in the poll loop's 503 recovery branch (App.tsx line 692). -/
def pollRetryMsg : String := "⚠️ Service temporarily unavailable, retrying with backoff..."

def timeoutMsg : String :=
  "⏰ Video generation timed out after 25 minutes. The service may be experiencing high load. Please try again later."

def emptyResultMsg : String := "❌ Video generation failed or returned no videos."

def allDownloadsFailedMsg : String := "❌ All video downloads failed. Please try again."

/-- `new Error(...)` carries a message but no `status`/`code` fields. -/
def mkJobError (m : String) : Err := ⟨none, none, m⟩

def timeoutErr : Err := mkJobError timeoutMsg

def emptyResultErr : Err := mkJobError emptyResultMsg

def allDownloadsFailedErr : Err := mkJobError allDownloadsFailedMsg

/-- State just before the poll loop (App.tsx lines 669-674): `messageIndex`
starts at 0 but `onProgress(progressMessages[messageIndex++])` runs before
the loop, so the loop starts with `messageIndex = 1` and the first message
already emitted; `pollAttempts` starts at 0. -/
def initPollState (op : Operation) : PollState :=
  ⟨op, 0, 1, [progressMessages.getD 0 defaultMsg]⟩

/-- The first half of a poll-loop iteration (App.tsx lines 678-682):
`pollAttempts++`, then
`if (messageIndex < progressMessages.length) onProgress(progressMessages[messageIndex++])`. -/
def bumpState (st : PollState) : PollState :=
  let st1 : PollState := { st with pollAttempts := st.pollAttempts + 1 }
  if st1.messageIndex < progressMessages.length then
    { st1 with
      messageIndex := st1.messageIndex + 1,
      progressLog := st1.progressLog ++ [progressMessages.getD st1.messageIndex defaultMsg] }
  else st1

/-- One iteration of the poll loop body (App.tsx lines 676-699):
increment `pollAttempts`; if staged messages remain, emit the next one;
then refresh the operation (`pollCall i` is the net outcome of
`retryWithBackoff(() => ai.operations.getVideosOperation(...), 5, 3000)`
on the iteration whose pre-increment `pollAttempts` is `i`).  A 503
failure only logs, emits the recovery message and keeps looping (after a
sleep, not modelled — timing carries no observable state); any other
failure is re-thrown.  The 15-second cadence sleep is likewise not
modelled. -/
def pollIterate (pollCall : Nat → Except Err Operation) (st : PollState) :
    Except Err PollState :=
  match pollCall st.pollAttempts with
  | .ok op => .ok { bumpState st with operation := op }
  | .error e =>
    if e.status == some 503 || e.code == some 503 then
      .ok { bumpState st with
            progressLog := (bumpState st).progressLog ++ [pollRetryMsg] }
    else .error e

/-- `const maxPollAttempts = 100` (App.tsx line 674). -/
def maxPollAttempts : Nat := 100

/-- `while (!operation.done && pollAttempts < maxPollAttempts)` (App.tsx
line 676), as recursion on `fuel = maxPollAttempts - pollAttempts` (each
iteration increments `pollAttempts` by exactly one, so `fuel = 0` is
exactly the exit case `pollAttempts = maxPollAttempts`). -/
def pollLoop (pollCall : Nat → Except Err Operation) :
    Nat → PollState → Except Err PollState
  | 0, st => .ok st
  | fuel + 1, st =>
    if st.operation.done then .ok st
    else
      match pollIterate pollCall st with
      | .ok st' => pollLoop pollCall fuel st'
      | .error e => .error e

/-- The checks following the poll loop (App.tsx lines 701-708): first
`if (pollAttempts >= maxPollAttempts) throw Timeout` — note this does not
consult `operation.done` — then the empty-result check on
`operation.response?.generatedVideos`. -/
def afterPollChecks (st : PollState) : Except Err (List VideoData) :=
  if maxPollAttempts ≤ st.pollAttempts then .error timeoutErr
  else
    match st.operation.response with
    | none => .error emptyResultErr
    | some vids => if vids.isEmpty then .error emptyResultErr else .ok vids

/-- A poll trace that keeps the loop going: every refresh either reports
the operation still processing, or fails with a transient 503 (by status
or code), which the loop's catch absorbs. -/
def keepsPolling (pollCall : Nat → Except Err Operation) : Prop :=
  ∀ i, (∃ op, pollCall i = .ok op ∧ op.done = false) ∨
       (∃ e, pollCall i = .error e ∧ (e.status == some 503 || e.code == some 503) = true)

/-- Message bookkeeping invariant of the poll loop: the emitted log is
exactly the consumed front of the staged-message list, and the cursor
tracks `min(pollAttempts + 1, 5)` (one message is consumed before the
loop, one per iteration until the list is exhausted). -/
def MsgInv (st : PollState) : Prop :=
  st.messageIndex = min (st.pollAttempts + 1) progressMessages.length ∧
  st.progressLog = progressMessages.take st.messageIndex

instance (st : PollState) : Decidable (MsgInv st) :=
  inferInstanceAs (Decidable (_ ∧ _))

/-- One element of the download `map` (App.tsx lines 712-730): a missing
download link is logged and yields `null`; otherwise the fetch runs through
`retryWithBackoff(..., 5, 2000)` (`fetchFn i a` is attempt `a` of the fetch
of artifact `i`), and a fetch whose retries are exhausted re-throws,
rejecting this element's promise. -/
def downloadOne (fetchFn : Nat → Nat → Except Err String) (i : Nat)
    (v : VideoData) : Except Err (Option String) :=
  match v.uri with
  | none => .ok none
  | some _ =>
    match (retryWithBackoff (fetchFn i) 5 2000).result with
    | .ok content => .ok (some content)
    | .error e => .error e

/-- `Promise.all(generatedVideos.map(...))` (App.tsx lines 712-732):
resolves, preserving order, exactly when every element resolves; rejects
if any element rejects (modelled as the leftmost rejecting element). -/
def downloadAll (fetchFn : Nat → Nat → Except Err String) :
    Nat → List VideoData → Except Err (List (Option String))
  | _, [] => .ok []
  | i, v :: rest =>
    match downloadOne fetchFn i v with
    | .error e => .error e
    | .ok o => (downloadAll fetchFn (i + 1) rest).map (o :: ·)

/-- The whole download phase (App.tsx lines 712-736): collect the mapped
download promises, filter out the `null`s of link-less artifacts, and fail
with the aggregate error when nothing survived. -/
def downloadPhase (fetchFn : Nat → Nat → Except Err String)
    (videos : List VideoData) : Except Err (List String) :=
  match downloadAll fetchFn 0 videos with
  | .error e => .error e
  | .ok opts =>
    let urls := opts.filterMap id
    if urls.isEmpty then .error allDownloadsFailedErr else .ok urls

/-- Expected download-phase element list used in theorem statements: the
artifact at index `i` contributes its fetched content `c i` when it has a
download link and `none` otherwise, in the service's order. -/
def expectedDownloads (c : Nat → String) : Nat → List VideoData → List (Option String)
  | _, [] => []
  | i, v :: rest =>
    (if v.uri.isSome then some (c i) else none) :: expectedDownloads c (i + 1) rest

def strStartsWith : List Char → List Char → Bool
  | [], _ => true
  | _ :: _, [] => false
  | a :: as, b :: bs => a == b && strStartsWith as bs

def hasSubstrAux (needle : List Char) : List Char → Bool
  | [] => strStartsWith needle []
  | c :: t => strStartsWith needle (c :: t) || hasSubstrAux needle t

/-- `message.includes(needle)` for the outer catch's timeout test. -/
def hasSubstr (needle hay : String) : Bool :=
  hasSubstrAux needle.toList hay.toList

def svcUnavailableMsg : String :=
  "🔄 Google Veo 3 service is currently unavailable. Your request is queued and will retry automatically with intelligent backoff."

def rateLimitMsg : String := "⏳ Rate limit exceeded. Your request is queued and will retry automatically."

def invalidKeyMsg : String := "🔑 Invalid API key. Please check your Google AI API key."

def accessDeniedMsg : String := "🚫 Access denied. Please check if your API key has access to Veo 3."

def requestTimedOutMsg : String := "⏰ Request timed out. The service may be experiencing high load."

def fallbackFailureMsg : String := "❌ Failed to generate video"

def timeoutWord : String := "timeout"

/-- The outer catch of `executeGeneration` (App.tsx lines 741-758): map a
raised error to the job-level error, by status/code, then by the
`message.includes('timeout')` test, falling back to
`new Error(error.message || '...')`. -/
def classifyOuter (e : Err) : Err :=
  if e.status == some 503 || e.code == some 503 then mkJobError svcUnavailableMsg
  else if e.status == some 429 then mkJobError rateLimitMsg
  else if e.status == some 401 then mkJobError invalidKeyMsg
  else if e.status == some 403 then mkJobError accessDeniedMsg
  else if hasSubstr timeoutWord e.message then mkJobError requestTimedOutMsg
  else if e.message == defaultMsg then mkJobError fallbackFailureMsg
  else mkJobError e.message

/-- `executeGeneration` (App.tsx lines 589-759), with the three remote
calls abstracted as outcome functions: `submitFn a` is attempt `a` of
`ai.models.generateVideos(requestPayload)` (retried with policy 8/5000);
`pollCall` and `fetchFn` as above.  Payload building and image encoding
carry no control flow that the claims touch and are not modelled.  Any
error raised by a phase is classified by the outer catch. -/
def executeGeneration (submitFn : Nat → Except Err Operation)
    (pollCall : Nat → Except Err Operation)
    (fetchFn : Nat → Nat → Except Err String) : Except Err (List String) :=
  match (retryWithBackoff submitFn 8 5000).result with
  | .error e => .error (classifyOuter e)
  | .ok op0 =>
    match pollLoop pollCall maxPollAttempts (initPollState op0) with
    | .error e => .error (classifyOuter e)
    | .ok st =>
      match afterPollChecks st with
      | .error e => .error (classifyOuter e)
      | .ok vids =>
        match downloadPhase fetchFn vids with
        | .error e => .error (classifyOuter e)
        | .ok urls => .ok urls

/-- The scheduler's state (`VideoGenerationQueue`, App.tsx lines 531-538):
the pending FIFO (`queue`, head = front), the running `Set` of ids, and
`maxConcurrent`. Ids are numbers here; the source's random string ids are
opaque and only compared for equality. -/
structure VideoGenerationQueue where
  queue : List Nat
  running : Finset Nat
  maxConcurrent : Nat
deriving DecidableEq

/-- Point-in-time snapshot returned by `getQueueStatus`
(App.tsx lines 761-767). -/
structure QueueStatus where
  queueLength : Nat
  runningCount : Nat
  maxConcurrent : Nat
deriving DecidableEq, Repr

namespace VideoGenerationQueue

/-- The synchronous part of `processQueue` (App.tsx lines 566-574): return
unchanged when the running set is full or nothing is pending; otherwise
shift the FIFO head into the running set (the shifted item's execution then
proceeds asynchronously). -/
def processQueue (s : VideoGenerationQueue) : VideoGenerationQueue :=
  if s.maxConcurrent ≤ s.running.card then s
  else
    match s.queue with
    | [] => s
    | id :: rest => { s with queue := rest, running := insert id s.running }

/-- The synchronous part of `add` (App.tsx lines 540-563): push a fresh
entry onto the pending FIFO, then trigger `processQueue` once. -/
def add (s : VideoGenerationQueue) (id : Nat) : VideoGenerationQueue :=
  processQueue { s with queue := s.queue ++ [id] }

/-- The `finally` block of `processQueue` (App.tsx lines 582-586) when the
executed item settles: delete its id from the running set.  The follow-up
`setTimeout(() => this.processQueue(), 3000)` is a later `dispatch` step. -/
def finishJob (s : VideoGenerationQueue) (id : Nat) : VideoGenerationQueue :=
  { s with running := s.running.erase id }

/-- `getQueueStatus` (App.tsx lines 761-767). -/
def getQueueStatus (s : VideoGenerationQueue) : QueueStatus :=
  ⟨s.queue.length, s.running.card, s.maxConcurrent⟩

/-- A freshly constructed queue (App.tsx line 771: both collections start
empty). -/
def init (maxConcurrent : Nat) : VideoGenerationQueue :=
  ⟨[], ∅, maxConcurrent⟩

/-- A burst of admissions, one `add` per id, left to right. -/
def addAll (s : VideoGenerationQueue) (ids : List Nat) : VideoGenerationQueue :=
  ids.foldl add s

/-- The scheduler's atomic state changes.  All queue/running mutations in
the source happen in the synchronous sections modelled here: `enqueue` is a
caller's `add` with a fresh id (the source generates unique random ids),
`dispatch` is a `processQueue` invocation (including the cooldown-deferred
one), `finish` is the `finally` cleanup of a settled item. -/
inductive QStep : VideoGenerationQueue → VideoGenerationQueue → Prop
  | enqueue (s : VideoGenerationQueue) (id : Nat) (hq : id ∉ s.queue)
      (hr : id ∉ s.running) : QStep s (add s id)
  | dispatch (s : VideoGenerationQueue) : QStep s (processQueue s)
  | finish (s : VideoGenerationQueue) (id : Nat) (h : id ∈ s.running) :
      QStep s (finishJob s id)

/-- Well-formedness: pending ids are distinct and disjoint from the
running set (the source's ids are unique for the process lifetime). -/
def WF (s : VideoGenerationQueue) : Prop :=
  s.queue.Nodup ∧ ∀ j ∈ s.queue, j ∉ s.running

instance (s : VideoGenerationQueue) : Decidable (WF s) :=
  inferInstanceAs (Decidable (_ ∧ _))

end VideoGenerationQueue

/-- Lifecycle phase of a UI job card (`GenerationJob.status`,
App.tsx lines 12-17). -/
inductive JobPhase
  | loading
  | success
  | error
deriving DecidableEq, Repr

/-- A UI job entry of the `App` component (App.tsx lines 12-17). -/
structure GenerationJob where
  id : Nat
  status : JobPhase
  url : Option String
  message : String
deriving DecidableEq, Repr

/-- `handleDeleteJob` (App.tsx lines 213-215): filter the job out of the
React `jobs` state.  This is the only removal the host exposes. -/
def handleDeleteJob (jobs : List GenerationJob) (jobId : Nat) : List GenerationJob :=
  jobs.filter (fun job => job.id != jobId)

/-- The pieces of application state that a delete touches or could touch:
the React `jobs` list and the module-global queue instance. -/
structure AppUI where
  jobs : List GenerationJob
  queue : VideoGenerationQueue
deriving DecidableEq

/-- The delete action at application level: `handleDeleteJob` mutates only
the React state; no code path reaches the queue instance
(App.tsx lines 213-215 call only `setJobs`). -/
def handleDeleteJobApp (st : AppUI) (jobId : Nat) : AppUI :=
  { st with jobs := handleDeleteJob st.jobs jobId }

/-! Concrete instances used by witnesses and counterexamples. -/

def uriSample : String := "https://service/video"

def contentOne : String := "blob-url-1"

def contentTwo : String := "blob-url-2"

def contentThree : String := "blob-url-3"

def fetchFailedMsg : String := "Failed to download video 2: 500 Internal Server Error"

def notFoundMsg : String := "Not Found"

def deniedMsg : String := "Permission denied"

def unavailableMsg : String := "Service Unavailable"

/-- An operation snapshot that is still processing. -/
def opNotDone : Operation := ⟨false, none⟩

/-- A finished operation carrying one downloadable artifact. -/
def opDoneOne : Operation := ⟨true, some [⟨some uriSample⟩]⟩

/-- A finished operation whose artifact list is empty. -/
def opDoneEmpty : Operation := ⟨true, some []⟩

/-- Three artifact references, each with a download link. -/
def videosThree : List VideoData :=
  [⟨some uriSample⟩, ⟨some uriSample⟩, ⟨some uriSample⟩]

/-- A finished operation carrying three artifact references with links. -/
def opDoneThree : Operation := ⟨true, some videosThree⟩

/-- Submit succeeds immediately with the given operation. -/
def submitOk (op : Operation) : Nat → Except Err Operation := fun _ => .ok op

/-- Every poll reports the service still processing. -/
def pollNeverDone : Nat → Except Err Operation := fun _ => .ok opNotDone

/-- Every poll fails with a non-retryable 404. -/
def pollAlways404 : Nat → Except Err Operation :=
  fun _ => .error ⟨some 404, none, notFoundMsg⟩

/-- Operation snapshots still processing for the first 99 refreshes, then
done with an artifact on the refresh of the 100th iteration. -/
def opsDoneAtCap : Nat → Operation :=
  fun i => if i < 99 then opNotDone else opDoneOne

/-- An operation that fails twice with a retryable 503, then succeeds. -/
def fnTwoTransient : Nat → Except Err Nat :=
  fun i => if i < 2 then .error ⟨some 503, none, unavailableMsg⟩ else .ok 7

/-- An operation that always fails with a retryable 503. -/
def fnAlwaysFail : Nat → Except Err Nat :=
  fun _ => .error ⟨some 503, none, unavailableMsg⟩

/-- The error trace of the two transient-failure operations above. -/
def esTransient : Nat → Err := fun _ => ⟨some 503, none, unavailableMsg⟩

/-- Fetch outcomes never consulted. -/
def fetchUnused : Nat → Nat → Except Err String :=
  fun _ _ => .error ⟨none, none, defaultMsg⟩

/-- Artifact 0 and 2 fetch on first attempt; artifact 1 always fails with
a retryable 500, so its retries exhaust. -/
def fetchMiddleFails : Nat → Nat → Except Err String := fun i _ =>
  if i == 0 then .ok contentOne
  else if i == 2 then .ok contentThree
  else .error ⟨some 500, none, fetchFailedMsg⟩

/-- Every fetch succeeds on the first attempt with indexed content. -/
def fetchAllOk : Nat → Nat → Except Err String := fun i _ =>
  if i == 0 then .ok contentOne
  else if i == 2 then .ok contentThree
  else .ok contentTwo

def contentAt : Nat → String := fun i =>
  if i == 0 then contentOne
  else if i == 2 then contentThree
  else contentTwo

/-- Three references where the middle one is missing its download link. -/
def videosMissingMiddle : List VideoData :=
  [⟨some uriSample⟩, ⟨none⟩, ⟨some uriSample⟩]

/-- A concrete scheduler run with `maxConcurrent = 1` and three admitted
jobs 0, 1, 2: job 0 starts at once, jobs 1 and 2 wait in FIFO order, and
slots are recycled by `finish` + cooldown `dispatch` steps; from step 7 on
the system idles on no-op dispatches. -/
def c4trace : Nat → VideoGenerationQueue
  | 0 => VideoGenerationQueue.init 1
  | 1 => VideoGenerationQueue.add (c4trace 0) 0
  | 2 => VideoGenerationQueue.add (c4trace 1) 1
  | 3 => VideoGenerationQueue.add (c4trace 2) 2
  | 4 => VideoGenerationQueue.finishJob (c4trace 3) 0
  | 5 => VideoGenerationQueue.processQueue (c4trace 4)
  | 6 => VideoGenerationQueue.finishJob (c4trace 5) 1
  | n + 7 => VideoGenerationQueue.processQueue (c4trace (n + 6))

/-- A UI job card for the pending job 5. -/
def pendingCard : GenerationJob := ⟨5, JobPhase.loading, none, defaultMsg⟩

/-- App state with four running jobs (1..4), job 5 pending, and a UI card
for job 5. -/
def appStateC8 : AppUI :=
  ⟨[pendingCard], ⟨[5], {1, 2, 3, 4}, 4⟩⟩

theorem retryLoop_succeeds_after {α : Type} (fn : Nat → Except Err α)
    (baseDelay : ℚ) (es : Nat → Err) (v : α) :
    ∀ (k a r : Nat), k ≤ r →
    (∀ i, i < k → fn (a + i) = .error (es (a + i)) ∧ nonRetryable (es (a + i)) = false) →
    fn (a + k) = .ok v →
    retryLoop fn baseDelay a r =
      ⟨.ok v, k + 1, (List.range k).map (fun i => baseDelay * (3 / 2) ^ (a + i))⟩ := by
  intro k
  induction k with
  | zero =>
    intro a r _ _ hok
    simp only [Nat.add_zero] at hok
    rw [retryLoop, hok]
    rfl
  | succ n ih =>
    intro a r hkr hfail hok
    have h0 : fn a = .error (es a) ∧ nonRetryable (es a) = false := by
      have := hfail 0 (Nat.succ_pos n)
      simpa using this
    obtain ⟨r', hr'⟩ : ∃ r', r = r' + 1 := by
      cases r with
      | zero => omega
      | succ m => exact ⟨m, rfl⟩
    subst hr'
    rw [retryLoop, h0.1]
    simp only [h0.2, Bool.false_eq_true, if_false]
    have hrec := ih (a + 1) r' (by omega)
      (fun i hi => by
        have := hfail (i + 1) (by omega)
        constructor
        · rw [show a + 1 + i = a + (i + 1) by omega]; exact this.1
        · rw [show a + 1 + i = a + (i + 1) by omega]; exact this.2)
      (by rw [show a + 1 + n = a + (n + 1) by omega]; exact hok)
    rw [hrec]
    have hlist : baseDelay * (3 / 2) ^ a ::
        (List.range n).map (fun i => baseDelay * (3 / 2) ^ (a + 1 + i)) =
        (List.range (n + 1)).map (fun i => baseDelay * (3 / 2) ^ (a + i)) := by
      rw [List.range_succ_eq_map, List.map_cons]
      simp only [Nat.add_zero]
      congr 1
      rw [List.map_map]
      apply List.map_congr_left
      intro i _
      simp only [Function.comp_apply]
      congr 2
      omega
    simp only [RetryResult.mk.injEq, true_and]
    exact hlist

theorem retryLoop_all_fail {α : Type} (fn : Nat → Except Err α)
    (baseDelay : ℚ) (es : Nat → Err) :
    ∀ (r a : Nat),
    (∀ i, i ≤ r → fn (a + i) = .error (es (a + i)) ∧ nonRetryable (es (a + i)) = false) →
    (retryLoop fn baseDelay a r).result = .error (es (a + r)) := by
  intro r
  induction r with
  | zero =>
    intro a hfail
    have h0 := hfail 0 (Nat.le_refl 0)
    simp only [Nat.add_zero] at h0 ⊢
    rw [retryLoop, h0.1]
    simp [h0.2]
  | succ n ih =>
    intro a hfail
    have h0 : fn a = .error (es a) ∧ nonRetryable (es a) = false := by
      have := hfail 0 (Nat.zero_le _)
      simpa using this
    rw [retryLoop, h0.1]
    simp only [h0.2, Bool.false_eq_true, if_false]
    have hrec := ih (a + 1)
      (fun i hi => by
        have := hfail (i + 1) (by omega)
        constructor
        · rw [show a + 1 + i = a + (i + 1) by omega]; exact this.1
        · rw [show a + 1 + i = a + (i + 1) by omega]; exact this.2)
    rw [show a + (n + 1) = a + 1 + n by omega]
    exact hrec

/-- Claim C5: an operation whose first attempt fails with a non-retryable
error (status 400, 401 or 403) makes the retrier fail immediately with
that very error after exactly one attempt and no backoff wait. -/
theorem c5_nonretryable_one_attempt {α : Type} (fn : Nat → Except Err α)
    (maxRetries : Nat) (baseDelay : ℚ) (e : Err)
    (hfail : fn 0 = .error e)
    (hstatus : e.status = some 400 ∨ e.status = some 401 ∨ e.status = some 403) :
    retryWithBackoff fn maxRetries baseDelay = ⟨.error e, 1, []⟩ := by
  have hnr : nonRetryable e = true := by
    unfold nonRetryable
    rcases hstatus with h | h | h <;> simp [h]
  unfold retryWithBackoff
  rw [retryLoop, hfail]
  simp [hnr]

theorem c5_witness :
    retryWithBackoff (fun _ => (.error ⟨some 403, none, deniedMsg⟩ : Except Err Nat))
        8 5000 = ⟨.error ⟨some 403, none, deniedMsg⟩, 1, []⟩ :=
  c5_nonretryable_one_attempt _ 8 5000 _ rfl (Or.inr (Or.inr rfl))

/-- Claim C6: an operation failing retryably exactly `k` times
(`k` below the attempt cap) and then succeeding makes the retrier perform
exactly `k + 1` attempts, waiting `baseDelay * 1.5 ^ attemptIndex` before
retry `attemptIndex` (0-based), which is strictly increasing for a
positive base delay; and when every permitted attempt fails retryably the
last failure is surfaced unmodified. -/
theorem c6_backoff_growth :
    (∀ (α : Type) (fn : Nat → Except Err α) (es : Nat → Err) (v : α)
        (k maxRetries : Nat) (baseDelay : ℚ),
      k < maxRetries + 1 →
      (∀ i, i < k → fn i = .error (es i) ∧ nonRetryable (es i) = false) →
      fn k = .ok v →
      0 < baseDelay →
      retryWithBackoff fn maxRetries baseDelay =
        ⟨.ok v, k + 1, (List.range k).map (fun i => baseDelay * (3 / 2) ^ i)⟩ ∧
      (retryWithBackoff fn maxRetries baseDelay).delays.Pairwise (· < ·)) ∧
    (∀ (α : Type) (fn : Nat → Except Err α) (es : Nat → Err)
        (maxRetries : Nat) (baseDelay : ℚ),
      (∀ i, i ≤ maxRetries → fn i = .error (es i) ∧ nonRetryable (es i) = false) →
      (retryWithBackoff fn maxRetries baseDelay).result = .error (es maxRetries)) := by
  constructor
  · intro α fn es v k maxRetries baseDelay hk hfail hok hpos
    have heq : retryWithBackoff fn maxRetries baseDelay =
        ⟨.ok v, k + 1, (List.range k).map (fun i => baseDelay * (3 / 2) ^ i)⟩ := by
      unfold retryWithBackoff
      have := retryLoop_succeeds_after fn baseDelay es v k 0 maxRetries (by omega)
        (fun i hi => by simpa using hfail i hi) (by simpa using hok)
      simpa using this
    refine ⟨heq, ?_⟩
    rw [heq]
    refine List.pairwise_map.mpr ?_
    have hmono : ∀ a b : Nat, a < b →
        baseDelay * (3 / 2) ^ a < baseDelay * (3 / 2) ^ b := by
      intro a b hab
      have h32 : (1 : ℚ) < 3 / 2 := by norm_num
      exact mul_lt_mul_of_pos_left (pow_lt_pow_right₀ h32 hab) hpos
    exact (List.pairwise_lt_range k).imp (fun h => hmono _ _ h)
  · intro α fn es maxRetries baseDelay hfail
    unfold retryWithBackoff
    have := retryLoop_all_fail fn baseDelay es maxRetries 0
      (fun i hi => by simpa using hfail i hi)
    simpa using this

theorem c6_witness :
    (retryWithBackoff fnTwoTransient 8 5000 =
        ⟨.ok 7, 2 + 1, (List.range 2).map (fun i => (5000 : ℚ) * (3 / 2) ^ i)⟩ ∧
      (retryWithBackoff fnTwoTransient 8 5000).delays.Pairwise (· < ·)) ∧
    (retryWithBackoff fnAlwaysFail 8 5000).result = .error (esTransient 8) :=
  ⟨c6_backoff_growth.1 Nat fnTwoTransient esTransient 7 2 8 5000 (by decide)
      (by decide) (by decide) (by norm_num),
   c6_backoff_growth.2 Nat fnAlwaysFail esTransient 8 5000 (by decide)⟩

theorem bumpState_pollAttempts (st : PollState) :
    (bumpState st).pollAttempts = st.pollAttempts + 1 := by
  by_cases h : st.messageIndex < progressMessages.length <;>
    simp [bumpState, h]

theorem bumpState_operation (st : PollState) :
    (bumpState st).operation = st.operation := by
  by_cases h : st.messageIndex < progressMessages.length <;>
    simp [bumpState, h]

theorem pollIterate_ok_of_poll_ok (pollCall : Nat → Except Err Operation)
    (st : PollState) (op : Operation) (h : pollCall st.pollAttempts = .ok op) :
    pollIterate pollCall st = .ok { bumpState st with operation := op } := by
  unfold pollIterate
  rw [h]

theorem pollIterate_ok_of_503 (pollCall : Nat → Except Err Operation)
    (st : PollState) (e : Err) (h : pollCall st.pollAttempts = .error e)
    (h503 : (e.status == some 503 || e.code == some 503) = true) :
    pollIterate pollCall st =
      .ok { bumpState st with
            progressLog := (bumpState st).progressLog ++ [pollRetryMsg] } := by
  unfold pollIterate
  rw [h]
  simp [h503]

theorem pollIterate_error (pollCall : Nat → Except Err Operation)
    (st : PollState) (e : Err) (h : pollCall st.pollAttempts = .error e)
    (h503 : ¬((e.status == some 503 || e.code == some 503) = true)) :
    pollIterate pollCall st = .error e := by
  unfold pollIterate
  rw [h]
  simp [h503]

theorem pollIterate_ok_attempts (pollCall : Nat → Except Err Operation)
    (st s1 : PollState) (h : pollIterate pollCall st = .ok s1) :
    s1.pollAttempts = st.pollAttempts + 1 := by
  cases hpc : pollCall st.pollAttempts with
  | ok op =>
    rw [pollIterate_ok_of_poll_ok pollCall st op hpc] at h
    injection h with h'
    rw [← h']
    exact bumpState_pollAttempts st
  | error e =>
    by_cases h503 : (e.status == some 503 || e.code == some 503) = true
    · rw [pollIterate_ok_of_503 pollCall st e hpc h503] at h
      injection h with h'
      rw [← h']
      exact bumpState_pollAttempts st
    · rw [pollIterate_error pollCall st e hpc h503] at h
      exact absurd h (by simp)

theorem pollLoop_attempts_le (pollCall : Nat → Except Err Operation) :
    ∀ (fuel : Nat) (st st' : PollState),
    pollLoop pollCall fuel st = .ok st' →
    st'.pollAttempts ≤ st.pollAttempts + fuel := by
  intro fuel
  induction fuel with
  | zero =>
    intro st st' h
    rw [pollLoop] at h
    injection h with h'
    subst h'
    omega
  | succ f ih =>
    intro st st' h
    rw [pollLoop] at h
    by_cases hdone : st.operation.done = true
    · rw [if_pos hdone] at h
      injection h with h'
      subst h'
      omega
    · rw [if_neg hdone] at h
      cases hit : pollIterate pollCall st with
      | ok s1 =>
        rw [hit] at h
        have h1 := pollIterate_ok_attempts pollCall st s1 hit
        have h2 := ih s1 st' h
        omega
      | error e =>
        rw [hit] at h
        exact absurd h (by simp)

theorem pollLoop_keepsPolling (pollCall : Nat → Except Err Operation)
    (hkp : keepsPolling pollCall) :
    ∀ (fuel : Nat) (st : PollState), st.operation.done = false →
    ∃ st', pollLoop pollCall fuel st = .ok st' ∧
      st'.pollAttempts = st.pollAttempts + fuel ∧
      st'.operation.done = false := by
  intro fuel
  induction fuel with
  | zero =>
    intro st hst
    exact ⟨st, by rw [pollLoop], by omega, hst⟩
  | succ f ih =>
    intro st hst
    rcases hkp st.pollAttempts with ⟨op, hpc, hop⟩ | ⟨e, hpc, h503⟩
    · obtain ⟨st', hloop, hatt, hdone⟩ :=
        ih { bumpState st with operation := op } hop
      refine ⟨st', ?_, ?_, hdone⟩
      · rw [pollLoop, if_neg (by simp [hst]),
          pollIterate_ok_of_poll_ok pollCall st op hpc]
        exact hloop
      · rw [hatt]
        show (bumpState st).pollAttempts + f = st.pollAttempts + (f + 1)
        rw [bumpState_pollAttempts]
        omega
    · obtain ⟨st', hloop, hatt, hdone⟩ :=
        ih { bumpState st with
             progressLog := (bumpState st).progressLog ++ [pollRetryMsg] }
          (by show (bumpState st).operation.done = false
              rw [bumpState_operation]
              exact hst)
      refine ⟨st', ?_, ?_, hdone⟩
      · rw [pollLoop, if_neg (by simp [hst]),
          pollIterate_ok_of_503 pollCall st e hpc h503]
        exact hloop
      · rw [hatt]
        show (bumpState st).pollAttempts + f = st.pollAttempts + (f + 1)
        rw [bumpState_pollAttempts]
        omega

theorem take_succ_getD {α : Type} (l : List α) (d : α) (n : Nat)
    (h : n < l.length) : l.take (n + 1) = l.take n ++ [l.getD n d] := by
  have hg : l[n]? = some l[n] := List.getElem?_eq_getElem h
  rw [List.take_succ, hg, List.getD_eq_getElem?_getD, hg]
  rfl

theorem bumpState_MsgInv (st : PollState) (h : MsgInv st) :
    MsgInv (bumpState st) := by
  obtain ⟨h1, h2⟩ := h
  by_cases hlt : st.messageIndex < progressMessages.length
  · have hb : bumpState st = { st with
        pollAttempts := st.pollAttempts + 1,
        messageIndex := st.messageIndex + 1,
        progressLog := st.progressLog ++
          [progressMessages.getD st.messageIndex defaultMsg] } := by
      simp [bumpState, hlt]
    rw [MsgInv, hb]
    constructor
    · show st.messageIndex + 1 = min (st.pollAttempts + 1 + 1) progressMessages.length
      omega
    · show st.progressLog ++ [progressMessages.getD st.messageIndex defaultMsg] =
        progressMessages.take (st.messageIndex + 1)
      rw [h2, ← take_succ_getD progressMessages defaultMsg st.messageIndex hlt]
  · have hb : bumpState st = { st with pollAttempts := st.pollAttempts + 1 } := by
      simp [bumpState, hlt]
    rw [MsgInv, hb]
    constructor
    · show st.messageIndex = min (st.pollAttempts + 1 + 1) progressMessages.length
      omega
    · exact h2

theorem pollLoop_all_ok_inv (pollCall : Nat → Except Err Operation)
    (hok : ∀ i, ∃ op, pollCall i = .ok op ∧ op.done = false) :
    ∀ (fuel : Nat) (st : PollState), st.operation.done = false → MsgInv st →
    ∃ st', pollLoop pollCall fuel st = .ok st' ∧
      st'.pollAttempts = st.pollAttempts + fuel ∧
      st'.operation.done = false ∧ MsgInv st' := by
  intro fuel
  induction fuel with
  | zero =>
    intro st hst hinv
    exact ⟨st, by rw [pollLoop], by omega, hst, hinv⟩
  | succ f ih =>
    intro st hst hinv
    obtain ⟨op, hpc, hop⟩ := hok st.pollAttempts
    have hinv' : MsgInv { bumpState st with operation := op } :=
      bumpState_MsgInv st hinv
    obtain ⟨st', hloop, hatt, hdone, hinv2⟩ :=
      ih { bumpState st with operation := op } hop hinv'
    refine ⟨st', ?_, ?_, hdone, hinv2⟩
    · rw [pollLoop, if_neg (by simp [hst]),
        pollIterate_ok_of_poll_ok pollCall st op hpc]
      exact hloop
    · rw [hatt]
      show (bumpState st).pollAttempts + f = st.pollAttempts + (f + 1)
      rw [bumpState_pollAttempts]
      omega

theorem pollLoop_through (ops : Nat → Operation) :
    ∀ (fuel : Nat) (st : PollState), 0 < fuel → st.operation.done = false →
    (∀ i, st.pollAttempts ≤ i → i + 1 < st.pollAttempts + fuel →
      (ops i).done = false) →
    ∃ st', pollLoop (fun i => .ok (ops i)) fuel st = .ok st' ∧
      st'.pollAttempts = st.pollAttempts + fuel ∧
      st'.operation = ops (st.pollAttempts + fuel - 1) := by
  intro fuel
  induction fuel with
  | zero =>
    intro st h0
    exact absurd h0 (lt_irrefl 0)
  | succ f ih =>
    intro st _ hst hops
    by_cases hf : f = 0
    · subst hf
      refine ⟨{ bumpState st with operation := ops st.pollAttempts }, ?_, ?_, ?_⟩
      · show pollLoop (fun i => .ok (ops i)) (Nat.succ 0) st =
          Except.ok { bumpState st with operation := ops st.pollAttempts }
        rw [pollLoop, if_neg (by simp [hst]),
          pollIterate_ok_of_poll_ok (fun i => .ok (ops i)) st
            (ops st.pollAttempts) rfl]
        rfl
      · show (bumpState st).pollAttempts = st.pollAttempts + 1
        exact bumpState_pollAttempts st
      · show ops st.pollAttempts = ops (st.pollAttempts + 1 - 1)
        rfl
    · have hfpos : 0 < f := Nat.pos_of_ne_zero hf
      have hdone0 : (ops st.pollAttempts).done = false :=
        hops st.pollAttempts (Nat.le_refl _) (by omega)
      have hb : ({ bumpState st with operation := ops st.pollAttempts } :
          PollState).pollAttempts = st.pollAttempts + 1 := by
        show (bumpState st).pollAttempts = st.pollAttempts + 1
        exact bumpState_pollAttempts st
      have hops1 : ∀ i,
          ({ bumpState st with operation := ops st.pollAttempts } :
            PollState).pollAttempts ≤ i →
          i + 1 < ({ bumpState st with operation := ops st.pollAttempts } :
            PollState).pollAttempts + f →
          (ops i).done = false := by
        intro i hi1 hi2
        rw [hb] at hi1 hi2
        exact hops i (by omega) (by omega)
      obtain ⟨st', hloop, hatt, hop⟩ :=
        ih { bumpState st with operation := ops st.pollAttempts } hfpos hdone0 hops1
      refine ⟨st', ?_, ?_, ?_⟩
      · rw [pollLoop, if_neg (by simp [hst]),
          pollIterate_ok_of_poll_ok (fun i => .ok (ops i)) st
            (ops st.pollAttempts) rfl]
        exact hloop
      · rw [hatt, hb]
        omega
      · rw [hop, hb]
        congr 1
        omega

theorem executeGeneration_err (submitFn pollCall : Nat → Except Err Operation)
    (fetchFn : Nat → Nat → Except Err String) (op0 : Operation) (st' : PollState)
    (e : Err)
    (hsub : (retryWithBackoff submitFn 8 5000).result = .ok op0)
    (hloop : pollLoop pollCall maxPollAttempts (initPollState op0) = .ok st')
    (hafter : afterPollChecks st' = .error e) :
    executeGeneration submitFn pollCall fetchFn = .error (classifyOuter e) := by
  unfold executeGeneration
  rw [hsub]
  show (match pollLoop pollCall maxPollAttempts (initPollState op0) with
        | Except.error e1 => Except.error (classifyOuter e1)
        | Except.ok st =>
          match afterPollChecks st with
          | Except.error e1 => Except.error (classifyOuter e1)
          | Except.ok vids =>
            match downloadPhase fetchFn vids with
            | Except.error e1 => Except.error (classifyOuter e1)
            | Except.ok urls => (Except.ok urls : Except Err (List String))) =
      Except.error (classifyOuter e)
  rw [hloop]
  show (match afterPollChecks st' with
        | Except.error e1 => Except.error (classifyOuter e1)
        | Except.ok vids =>
          match downloadPhase fetchFn vids with
          | Except.error e1 => Except.error (classifyOuter e1)
          | Except.ok urls => (Except.ok urls : Except Err (List String))) =
      Except.error (classifyOuter e)
  rw [hafter]

/-- Claim C2 counterexample: an execution in which the remote never reports
`done = true` — every poll fails with a non-retryable 404 — fails the job
after one poll iteration with the 404's message, not with the Timeout
error, so "never reports done implies the job fails with a Timeout error"
is false as stated. -/
theorem c2_counterexample :
    executeGeneration (submitOk opNotDone) pollAlways404 fetchUnused =
      .error (mkJobError notFoundMsg) ∧
    notFoundMsg ≠ timeoutMsg := by
  exact ⟨rfl, by decide⟩

/-- Claim C2 (amended): the poll loop performs at most 100 iterations from
any state (each successful iteration increments `pollAttempts` by exactly
one and the fuel bound caps it, so it never hangs); and when every poll
either reports the operation still processing or fails transiently with a
503, the job fails with the Timeout error, whose message is distinct from
the job-level ServiceUnavailable message.  A poll failing non-transiently
instead fails the job immediately with that error (see the
counterexample). -/
theorem c2_poll_cap_timeout :
    (∀ (pollCall : Nat → Except Err Operation) (fuel : Nat) (st st' : PollState),
      pollLoop pollCall fuel st = .ok st' →
      st'.pollAttempts ≤ st.pollAttempts + fuel) ∧
    (∀ (submitFn pollCall : Nat → Except Err Operation)
        (fetchFn : Nat → Nat → Except Err String) (op0 : Operation),
      (retryWithBackoff submitFn 8 5000).result = .ok op0 →
      op0.done = false →
      keepsPolling pollCall →
      executeGeneration submitFn pollCall fetchFn =
        .error (mkJobError timeoutMsg) ∧
      timeoutMsg ≠ svcUnavailableMsg) := by
  constructor
  · exact fun pollCall => pollLoop_attempts_le pollCall
  · intro submitFn pollCall fetchFn op0 hsub h0 hkp
    obtain ⟨st', hloop, hatt, _⟩ :=
      pollLoop_keepsPolling pollCall hkp maxPollAttempts (initPollState op0)
        (by show op0.done = false; exact h0)
    have h100 : st'.pollAttempts = 100 := by rw [hatt]; rfl
    have hafter : afterPollChecks st' = .error timeoutErr := by
      unfold afterPollChecks
      rw [if_pos (by rw [h100]; decide)]
    have hcls : classifyOuter timeoutErr = mkJobError timeoutMsg := by decide
    refine ⟨?_, by decide⟩
    rw [executeGeneration_err submitFn pollCall fetchFn op0 st' timeoutErr
      hsub hloop hafter, hcls]

set_option maxRecDepth 16384 in
theorem c2_witness :
    (⟨opNotDone, 100, 5, progressMessages⟩ : PollState).pollAttempts ≤
      (initPollState opNotDone).pollAttempts + 100 ∧
    (executeGeneration (submitOk opNotDone) pollNeverDone fetchUnused =
        .error (mkJobError timeoutMsg) ∧
      timeoutMsg ≠ svcUnavailableMsg) :=
  ⟨c2_poll_cap_timeout.1 pollNeverDone 100 (initPollState opNotDone)
      ⟨opNotDone, 100, 5, progressMessages⟩ rfl,
   c2_poll_cap_timeout.2 (submitOk opNotDone) pollNeverDone fetchUnused
      opNotDone rfl rfl (fun _ => Or.inl ⟨opNotDone, rfl, rfl⟩)⟩

set_option maxRecDepth 16384 in
/-- Claim C7 counterexample: with every poll succeeding and the service
never done, the loop runs all 100 iterations but the progress sink
receives exactly the 5 staged messages (one before the loop, one on each
of the first 4 iterations) and then nothing more: the last message is not
repeated and no message is emitted on iterations 5 through 100, so
"a progress message is emitted on every successful poll iteration" is
false. -/
theorem c7_counterexample :
    pollLoop pollNeverDone maxPollAttempts (initPollState opNotDone) =
      .ok ⟨opNotDone, 100, 5, progressMessages⟩ ∧
    progressMessages.length < 100 := by
  exact ⟨rfl, by decide⟩

/-- Claim C7 (amended): on each successful poll iteration the executor
emits the next message of the fixed staged list while unconsumed messages
remain (one is consumed before the loop, so iterations 1 through 4 emit
messages 2 through 5); once the list is exhausted it emits nothing
further, so a full never-done run of 100 iterations ends with the sink
having received exactly the 5 staged messages. -/
theorem c7_staged_messages (pollCall : Nat → Except Err Operation)
    (op0 : Operation)
    (hok : ∀ i, ∃ op, pollCall i = .ok op ∧ op.done = false)
    (h0 : op0.done = false) :
    ∃ st', pollLoop pollCall maxPollAttempts (initPollState op0) = .ok st' ∧
      st'.pollAttempts = maxPollAttempts ∧
      st'.progressLog = progressMessages := by
  obtain ⟨st', hloop, hatt, _, hinv⟩ :=
    pollLoop_all_ok_inv pollCall hok maxPollAttempts (initPollState op0)
      (by show op0.done = false; exact h0)
      (by refine ⟨?_, ?_⟩
          · show (1 : Nat) = min (0 + 1) progressMessages.length
            decide
          · show [progressMessages.getD 0 defaultMsg] = progressMessages.take 1
            decide)
  have h100 : st'.pollAttempts = 100 := by rw [hatt]; rfl
  refine ⟨st', hloop, by rw [h100]; rfl, ?_⟩
  obtain ⟨hm, hl⟩ := hinv
  rw [hl, hm, h100]
  decide

theorem c7_witness :
    ∃ st', pollLoop pollNeverDone maxPollAttempts (initPollState opNotDone) =
        .ok st' ∧
      st'.pollAttempts = maxPollAttempts ∧
      st'.progressLog = progressMessages :=
  c7_staged_messages pollNeverDone opNotDone
    (fun _ => ⟨opNotDone, rfl, rfl⟩) rfl

/-- Claim C9: when the remote reports `done = true` with a missing or empty
artifact list within the poll-iteration cap, the job fails with the
empty-result error, which is distinct from the Timeout error. -/
theorem c9_empty_result (submitFn pollCall : Nat → Except Err Operation)
    (fetchFn : Nat → Nat → Except Err String) (op0 : Operation)
    (st' : PollState)
    (hsub : (retryWithBackoff submitFn 8 5000).result = .ok op0)
    (hloop : pollLoop pollCall maxPollAttempts (initPollState op0) = .ok st')
    (_hdone : st'.operation.done = true)
    (hcap : st'.pollAttempts < maxPollAttempts)
    (hempty : st'.operation.response = none ∨ st'.operation.response = some []) :
    executeGeneration submitFn pollCall fetchFn =
      .error (mkJobError emptyResultMsg) ∧
    emptyResultMsg ≠ timeoutMsg := by
  have hafter : afterPollChecks st' = .error emptyResultErr := by
    unfold afterPollChecks
    rw [if_neg (by omega)]
    rcases hempty with h | h
    · rw [h]
    · rw [h]
      rfl
  have hcls : classifyOuter emptyResultErr = mkJobError emptyResultMsg := by
    decide
  refine ⟨?_, by decide⟩
  rw [executeGeneration_err submitFn pollCall fetchFn op0 st' emptyResultErr
    hsub hloop hafter, hcls]

theorem c9_witness :
    executeGeneration (submitOk opDoneEmpty) pollNeverDone fetchUnused =
      .error (mkJobError emptyResultMsg) ∧
    emptyResultMsg ≠ timeoutMsg :=
  c9_empty_result (submitOk opDoneEmpty) pollNeverDone fetchUnused opDoneEmpty
    (initPollState opDoneEmpty) rfl rfl rfl (by decide) (Or.inr rfl)

/-- Claim C10: when the remote first reports `done = true` exactly on the
iteration where `pollAttempts` reaches the cap of 100, the job still fails
with the Timeout error even though the operation completed and non-empty
artifact references are available, because the post-loop cap check
(`pollAttempts >= maxPollAttempts`) does not consult `done`. -/
theorem c10_done_at_cap (submitFn : Nat → Except Err Operation)
    (ops : Nat → Operation) (fetchFn : Nat → Nat → Except Err String)
    (op0 : Operation) (vids : List VideoData)
    (hsub : (retryWithBackoff submitFn 8 5000).result = .ok op0)
    (h0 : op0.done = false)
    (hbefore : ∀ i, i < 99 → (ops i).done = false)
    (_hdone : (ops 99).done = true)
    (_hresp : (ops 99).response = some vids)
    (_hne : vids ≠ []) :
    executeGeneration submitFn (fun i => .ok (ops i)) fetchFn =
      .error (mkJobError timeoutMsg) := by
  obtain ⟨st', hloop, hatt, hop⟩ :=
    pollLoop_through ops maxPollAttempts (initPollState op0) (by decide)
      (by show op0.done = false; exact h0)
      (by intro i hi1 hi2
          apply hbefore
          have hz : (initPollState op0).pollAttempts = 0 := rfl
          have hM : maxPollAttempts = 100 := rfl
          rw [hz, hM] at hi2
          show i < 99
          omega)
  have h100 : st'.pollAttempts = 100 := by rw [hatt]; rfl
  have hafter : afterPollChecks st' = .error timeoutErr := by
    unfold afterPollChecks
    rw [if_pos (by rw [h100]; decide)]
  have hcls : classifyOuter timeoutErr = mkJobError timeoutMsg := by decide
  rw [executeGeneration_err submitFn (fun i => .ok (ops i)) fetchFn op0 st'
    timeoutErr hsub hloop hafter, hcls]

theorem c10_witness :
    executeGeneration (submitOk opNotDone) (fun i => .ok (opsDoneAtCap i))
        fetchUnused =
      .error (mkJobError timeoutMsg) :=
  c10_done_at_cap (submitOk opNotDone) opsDoneAtCap fetchUnused opNotDone
    [⟨some uriSample⟩] rfl rfl (by decide) (by decide) (by decide) (by decide)

theorem downloadAll_ok (fetchFn : Nat → Nat → Except Err String) (c : Nat → String) :
    ∀ (videos : List VideoData) (start : Nat),
    (∀ j, (hj : j < videos.length) → (videos.get ⟨j, hj⟩).uri.isSome = true →
      (retryWithBackoff (fetchFn (start + j)) 5 2000).result = .ok (c (start + j))) →
    downloadAll fetchFn start videos = .ok (expectedDownloads c start videos) := by
  intro videos
  induction videos with
  | nil =>
    intro start _
    rfl
  | cons v rest ih =>
    intro start h
    have hhead : downloadOne fetchFn start v =
        .ok (if v.uri.isSome then some (c start) else none) := by
      cases hv : v.uri with
      | none =>
        unfold downloadOne
        rw [hv]
        simp [hv]
      | some u =>
        have h0 := h 0 (by simp) (by rw [show ((v :: rest).get ⟨0, by simp⟩) = v from rfl, hv]; rfl)
        unfold downloadOne
        rw [hv]
        rw [show (retryWithBackoff (fetchFn start) 5 2000).result =
          .ok (c start) from by simpa using h0]
        simp [hv]
    have hrec := ih (start + 1) (fun j hj hsome => by
      have hj' : j + 1 < (v :: rest).length := by simpa using Nat.succ_lt_succ hj
      have h2 := h (j + 1) hj' hsome
      have harith : start + (j + 1) = start + 1 + j := by omega
      rw [harith] at h2
      exact h2)
    rw [downloadAll, hhead, hrec]
    rfl

theorem expectedDownloads_mem (c : Nat → String) :
    ∀ (videos : List VideoData) (start j : Nat) (hj : j < videos.length),
    (videos.get ⟨j, hj⟩).uri.isSome = true →
    some (c (start + j)) ∈ expectedDownloads c start videos := by
  intro videos
  induction videos with
  | nil =>
    intro start j hj
    exact absurd hj (by simp)
  | cons v rest ih =>
    intro start j hj hsome
    cases j with
    | zero =>
      have hv : v.uri.isSome = true := hsome
      rw [expectedDownloads, hv]
      simp
    | succ j' =>
      have hmem := ih (start + 1) j' (Nat.lt_of_succ_lt_succ hj) hsome
      rw [expectedDownloads]
      have harith : start + (j' + 1) = start + 1 + j' := by omega
      rw [harith]
      exact List.mem_cons_of_mem _ hmem

theorem downloadAll_err (fetchFn : Nat → Nat → Except Err String) :
    ∀ (videos : List VideoData) (start j : Nat) (hj : j < videos.length) (e : Err),
    (videos.get ⟨j, hj⟩).uri.isSome = true →
    (retryWithBackoff (fetchFn (start + j)) 5 2000).result = .error e →
    ∃ e', downloadAll fetchFn start videos = .error e' := by
  intro videos
  induction videos with
  | nil =>
    intro start j hj
    exact absurd hj (by simp)
  | cons v rest ih =>
    intro start j hj e hsome herr
    cases j with
    | zero =>
      obtain ⟨u, hu⟩ : ∃ u, v.uri = some u := Option.isSome_iff_exists.mp hsome
      have hhead : downloadOne fetchFn start v = .error e := by
        unfold downloadOne
        rw [hu]
        rw [show (retryWithBackoff (fetchFn start) 5 2000).result =
          .error e from by simpa using herr]
      refine ⟨e, ?_⟩
      rw [downloadAll, hhead]
    | succ j' =>
      cases hhead : downloadOne fetchFn start v with
      | error e0 =>
        refine ⟨e0, ?_⟩
        rw [downloadAll, hhead]
      | ok o =>
        obtain ⟨e', hrec⟩ := ih (start + 1) j' (Nat.lt_of_succ_lt_succ hj) e hsome
          (by rw [show start + 1 + j' = start + (j' + 1) from by omega]; exact herr)
        refine ⟨e', ?_⟩
        rw [downloadAll, hhead, hrec]
        rfl

/-- Claim C1 (amended): in the download phase, an artifact reference whose
download link is missing is dropped (`null`, filtered out) without
aborting the job; when every linked artifact's fetch succeeds within its
retries and at least one artifact has a link, the phase succeeds with
exactly the fetched contents in the service's order.  But an artifact
whose fetch exhausts its retries rejects the whole `Promise.all`, failing
the phase (and hence the job) — it is not dropped, contrary to the claim
(see the counterexample). -/
theorem c1_download_phase :
    (∀ (videos : List VideoData) (fetchFn : Nat → Nat → Except Err String)
        (c : Nat → String),
      (∀ j, (hj : j < videos.length) → (videos.get ⟨j, hj⟩).uri.isSome = true →
        (retryWithBackoff (fetchFn j) 5 2000).result = .ok (c j)) →
      (∃ j, ∃ hj : j < videos.length, (videos.get ⟨j, hj⟩).uri.isSome = true) →
      downloadPhase fetchFn videos =
        .ok ((expectedDownloads c 0 videos).filterMap id)) ∧
    (∀ (videos : List VideoData) (fetchFn : Nat → Nat → Except Err String)
        (j : Nat) (hj : j < videos.length) (e : Err),
      (videos.get ⟨j, hj⟩).uri.isSome = true →
      (retryWithBackoff (fetchFn j) 5 2000).result = .error e →
      ∃ e', downloadPhase fetchFn videos = .error e') := by
  constructor
  · intro videos fetchFn c h hex
    have hall : downloadAll fetchFn 0 videos = .ok (expectedDownloads c 0 videos) :=
      downloadAll_ok fetchFn c videos 0 (fun j hj hs => by simpa using h j hj hs)
    obtain ⟨j, hj, hs⟩ := hex
    have hmem : some (c j) ∈ expectedDownloads c 0 videos := by
      have := expectedDownloads_mem c videos 0 j hj hs
      simpa using this
    have hne : (expectedDownloads c 0 videos).filterMap id ≠ [] := by
      intro hemp
      have hin : c j ∈ (expectedDownloads c 0 videos).filterMap id :=
        List.mem_filterMap.mpr ⟨some (c j), hmem, rfl⟩
      rw [hemp] at hin
      exact absurd hin (List.not_mem_nil _)
    unfold downloadPhase
    rw [hall]
    show (if ((expectedDownloads c 0 videos).filterMap id).isEmpty then
            Except.error allDownloadsFailedErr
          else Except.ok ((expectedDownloads c 0 videos).filterMap id)) =
      Except.ok ((expectedDownloads c 0 videos).filterMap id)
    rw [if_neg (by simpa [List.isEmpty_iff] using hne)]
  · intro videos fetchFn j hj e hs herr
    obtain ⟨e', hall⟩ := downloadAll_err fetchFn videos 0 j hj e hs
      (by simpa using herr)
    refine ⟨e', ?_⟩
    unfold downloadPhase
    rw [hall]

/-- Claim C1 counterexample: three linked artifact references where the
fetch of reference 2 always fails retryably (so its retries exhaust) while
references 1 and 3 fetch successfully: the job does not succeed with the
2-element result `[ref1-content, ref3-content]` — the exhausted fetch
rejects `Promise.all` and the job fails with that fetch's error. -/
theorem c1_counterexample :
    executeGeneration (submitOk opDoneThree) pollNeverDone fetchMiddleFails =
      .error (mkJobError fetchFailedMsg) ∧
    (.error (mkJobError fetchFailedMsg) : Except Err (List String)) ≠
      .ok [contentOne, contentThree] := by
  exact ⟨rfl, by decide⟩

theorem c1_witness :
    downloadPhase fetchAllOk videosMissingMiddle =
      .ok ((expectedDownloads contentAt 0 videosMissingMiddle).filterMap id) ∧
    (∃ e', downloadPhase fetchMiddleFails videosThree = .error e') :=
  ⟨c1_download_phase.1 videosMissingMiddle fetchAllOk contentAt (by decide)
      ⟨0, by decide, by decide⟩,
   c1_download_phase.2 videosThree fetchMiddleFails 1 (by decide)
      ⟨some 500, none, fetchFailedMsg⟩ (by decide) (by decide)⟩

namespace VideoGenerationQueue

theorem processQueue_maxConcurrent (s : VideoGenerationQueue) :
    (processQueue s).maxConcurrent = s.maxConcurrent := by
  unfold processQueue
  split
  · rfl
  · split <;> rfl

theorem processQueue_card (s : VideoGenerationQueue)
    (h : s.running.card ≤ s.maxConcurrent) :
    (processQueue s).running.card ≤ s.maxConcurrent := by
  unfold processQueue
  split
  · exact h
  · rename_i hlt
    split
    · exact h
    · rename_i id rest heq
      show (insert id s.running).card ≤ s.maxConcurrent
      calc (insert id s.running).card ≤ s.running.card + 1 :=
            Finset.card_insert_le _ _
        _ ≤ s.maxConcurrent := by omega

theorem add_maxConcurrent (s : VideoGenerationQueue) (id : Nat) :
    (add s id).maxConcurrent = s.maxConcurrent := by
  unfold add
  rw [processQueue_maxConcurrent]

theorem qstep_card (s s' : VideoGenerationQueue) (hstep : QStep s s')
    (h : s.running.card ≤ s.maxConcurrent) :
    s'.running.card ≤ s'.maxConcurrent ∧ s'.maxConcurrent = s.maxConcurrent := by
  cases hstep with
  | enqueue id hq hr =>
    constructor
    · rw [add_maxConcurrent]
      unfold add
      exact processQueue_card _ h
    · exact add_maxConcurrent s id
  | dispatch =>
    refine ⟨?_, processQueue_maxConcurrent s⟩
    rw [processQueue_maxConcurrent]
    exact processQueue_card s h
  | finish id hid =>
    refine ⟨?_, rfl⟩
    show (s.running.erase id).card ≤ s.maxConcurrent
    calc (s.running.erase id).card ≤ s.running.card := Finset.card_erase_le
      _ ≤ s.maxConcurrent := h

theorem processQueue_WF (s : VideoGenerationQueue) (h : WF s) :
    WF (processQueue s) := by
  obtain ⟨hnd, hdisj⟩ := h
  unfold processQueue
  split
  · exact ⟨hnd, hdisj⟩
  · split
    · exact ⟨hnd, hdisj⟩
    · rename_i id rest heq
      refine ⟨?_, ?_⟩
      · exact (List.nodup_cons.mp (heq ▸ hnd)).2
      · intro x hx
        have hxq : x ∈ s.queue := heq ▸ List.mem_cons_of_mem id hx
        have hxr : x ∉ s.running := hdisj x hxq
        have hxid : x ≠ id := by
          have hid : id ∉ rest := (List.nodup_cons.mp (heq ▸ hnd)).1
          intro hcon
          subst hcon
          exact hid hx
        show x ∉ insert id s.running
        simp [Finset.mem_insert, hxid, hxr]

theorem add_WF (s : VideoGenerationQueue) (id : Nat) (hq : id ∉ s.queue)
    (hr : id ∉ s.running) (h : WF s) : WF (add s id) := by
  apply processQueue_WF
  refine ⟨?_, ?_⟩
  · show (s.queue ++ [id]).Nodup
    rw [List.nodup_append]
    refine ⟨h.1, by simp, ?_⟩
    intro a ha hb
    simp at hb
    subst hb
    exact hq ha
  · intro x hx
    rcases List.mem_append.mp hx with hx1 | hx2
    · exact h.2 x hx1
    · simp at hx2
      subst hx2
      exact hr

theorem finishJob_WF (s : VideoGenerationQueue) (id : Nat) (h : WF s) :
    WF (finishJob s id) := by
  refine ⟨h.1, ?_⟩
  intro x hx
  show x ∉ s.running.erase id
  intro hmem
  exact h.2 x hx (Finset.mem_of_mem_erase hmem)

theorem qstep_WF (s s' : VideoGenerationQueue) (hstep : QStep s s')
    (h : WF s) : WF s' := by
  cases hstep with
  | enqueue id hq hr => exact add_WF s id hq hr h
  | dispatch => exact processQueue_WF s h
  | finish id hid => exact finishJob_WF s id h

theorem processQueue_sublist (s : VideoGenerationQueue) (A B : Nat)
    (hAB : List.Sublist [A, B] s.queue) :
    List.Sublist [A, B] (processQueue s).queue ∨ A ∈ (processQueue s).running := by
  unfold processQueue
  split
  · exact Or.inl hAB
  · split
    · exact Or.inl hAB
    · rename_i id rest heq
      rw [heq] at hAB
      cases hAB with
      | cons _ hs =>
        exact Or.inl hs
      | cons₂ _ hs =>
        right
        exact Finset.mem_insert_self A _

theorem qstep_sublist (s s' : VideoGenerationQueue) (hstep : QStep s s')
    (A B : Nat) (hAB : List.Sublist [A, B] s.queue) :
    List.Sublist [A, B] s'.queue ∨ A ∈ s'.running := by
  cases hstep with
  | enqueue id hq hr =>
    have hAB' : List.Sublist [A, B] (s.queue ++ [id]) :=
      hAB.trans (List.sublist_append_left _ _)
    exact processQueue_sublist _ A B hAB'
  | dispatch => exact processQueue_sublist s A B hAB
  | finish id hid => exact Or.inl hAB

theorem addAll_spec : ∀ (rest : List Nat) (s : VideoGenerationQueue),
    rest.Nodup → (∀ j ∈ rest, j ∉ s.running) →
    ((s.running.card < s.maxConcurrent ∧ s.queue = []) ∨
      s.maxConcurrent ≤ s.running.card) →
    (addAll s rest).queue =
      s.queue ++ rest.drop (s.maxConcurrent - s.running.card) ∧
    (addAll s rest).running.card =
      s.running.card + min (s.maxConcurrent - s.running.card) rest.length ∧
    (addAll s rest).maxConcurrent = s.maxConcurrent := by
  intro rest
  induction rest with
  | nil =>
    intro s _ _ _
    refine ⟨by simp [addAll], by simp [addAll], rfl⟩
  | cons j rest' ih =>
    intro s hnodup hfresh hinv
    obtain ⟨q, R, L⟩ := s
    have hstep : addAll ⟨q, R, L⟩ (j :: rest') = addAll (add ⟨q, R, L⟩ j) rest' := rfl
    have hjR : j ∉ R := hfresh j (by simp)
    rcases hinv with ⟨hlt, hq⟩ | hfull
    · have hq' : q = [] := hq
      subst hq'
      have hlt' : R.card < L := hlt
      have hadd : add ⟨[], R, L⟩ j = ⟨[], insert j R, L⟩ := by
        unfold add processQueue
        rw [if_neg (by show ¬(L ≤ R.card); omega)]
        rfl
      have hcard : (insert j R).card = R.card + 1 :=
        Finset.card_insert_of_not_mem hjR
      have ihres := ih ⟨[], insert j R, L⟩ (hnodup.of_cons)
        (by intro x hx
            show x ∉ insert j R
            have hxj : x ≠ j := by
              have : j ∉ rest' := (List.nodup_cons.mp hnodup).1
              intro hcon
              subst hcon
              exact this hx
            simp [Finset.mem_insert, hxj]
            exact hfresh x (List.mem_cons_of_mem j hx))
        (by by_cases hc : R.card + 1 < L
            · exact Or.inl ⟨by show (insert j R).card < L; omega, rfl⟩
            · exact Or.inr (by show L ≤ (insert j R).card; omega))
      rw [hstep, hadd]
      obtain ⟨ih1, ih2, ih3⟩ := ihres
      refine ⟨?_, ?_, ?_⟩
      · rw [ih1]
        show [] ++ rest'.drop (L - (insert j R).card) =
          [] ++ (j :: rest').drop (L - R.card)
        rw [hcard]
        rw [show L - R.card = (L - (R.card + 1)) + 1 from by omega]
        rfl
      · rw [ih2, hcard]
        show R.card + 1 + min (L - (R.card + 1)) rest'.length =
          R.card + min (L - R.card) (rest'.length + 1)
        omega
      · exact ih3
    · have hfull' : L ≤ R.card := hfull
      have hadd : add ⟨q, R, L⟩ j = ⟨q ++ [j], R, L⟩ := by
        unfold add processQueue
        rw [if_pos (by show L ≤ R.card; omega)]
      have ihres := ih ⟨q ++ [j], R, L⟩ (hnodup.of_cons)
        (fun x hx => hfresh x (List.mem_cons_of_mem j hx))
        (Or.inr (by show L ≤ R.card; omega))
      rw [hstep, hadd]
      obtain ⟨ih1, ih2, ih3⟩ := ihres
      refine ⟨?_, ?_, ?_⟩
      · rw [ih1]
        show (q ++ [j]) ++ rest'.drop (L - R.card) =
          q ++ (j :: rest').drop (L - R.card)
        rw [show L - R.card = 0 from by omega]
        simp
      · rw [ih2]
        show R.card + min (L - R.card) rest'.length =
          R.card + min (L - R.card) (rest'.length + 1)
        omega
      · exact ih3

end VideoGenerationQueue

/-- Claim C3: across every scheduler step the running set's size never
exceeds the concurrency limit (which no step changes); and admitting N
distinct jobs into a fresh queue with limit L < N leaves, immediately
after the admissions, exactly N − L entries pending and L running, as
reported by `getQueueStatus`. -/
theorem c3_concurrency_bound :
    (∀ s s', VideoGenerationQueue.QStep s s' →
      s.running.card ≤ s.maxConcurrent →
      s'.running.card ≤ s'.maxConcurrent ∧
        s'.maxConcurrent = s.maxConcurrent) ∧
    (∀ (L : Nat) (ids : List Nat), ids.Nodup → L < ids.length →
      VideoGenerationQueue.getQueueStatus
          (VideoGenerationQueue.addAll (VideoGenerationQueue.init L) ids) =
        ⟨ids.length - L, L, L⟩) := by
  constructor
  · exact fun s s' hstep h => VideoGenerationQueue.qstep_card s s' hstep h
  · intro L ids hnodup hlen
    have hspec := VideoGenerationQueue.addAll_spec ids
      (VideoGenerationQueue.init L) hnodup
      (by intro j _; show j ∉ (∅ : Finset Nat); simp)
      (by by_cases hL : 0 < L
          · exact Or.inl ⟨by show (∅ : Finset Nat).card < L; simpa using hL, rfl⟩
          · exact Or.inr (by show L ≤ (∅ : Finset Nat).card; simp; omega))
    obtain ⟨h1, h2, h3⟩ := hspec
    have hq : (VideoGenerationQueue.addAll
        (VideoGenerationQueue.init L) ids).queue.length = ids.length - L := by
      rw [h1]
      show ([] ++ ids.drop (L - (∅ : Finset Nat).card)).length = ids.length - L
      simp
    have hc : (VideoGenerationQueue.addAll
        (VideoGenerationQueue.init L) ids).running.card = L := by
      rw [h2]
      show (∅ : Finset Nat).card +
        min (L - (∅ : Finset Nat).card) ids.length = L
      simp
      omega
    have hm : (VideoGenerationQueue.addAll
        (VideoGenerationQueue.init L) ids).maxConcurrent = L := by
      rw [h3]
      rfl
    unfold VideoGenerationQueue.getQueueStatus
    rw [hq, hc, hm]

theorem c3_witness :
    ((VideoGenerationQueue.add (VideoGenerationQueue.init 2) 0).running.card ≤
        (VideoGenerationQueue.add (VideoGenerationQueue.init 2) 0).maxConcurrent ∧
      (VideoGenerationQueue.add (VideoGenerationQueue.init 2) 0).maxConcurrent =
        (VideoGenerationQueue.init 2).maxConcurrent) ∧
    VideoGenerationQueue.getQueueStatus
        (VideoGenerationQueue.addAll (VideoGenerationQueue.init 2)
          [0, 1, 2, 3, 4]) =
      ⟨3, 2, 2⟩ :=
  ⟨c3_concurrency_bound.1 (VideoGenerationQueue.init 2) _
      (VideoGenerationQueue.QStep.enqueue _ 0 (by decide) (by decide)) (by decide),
   c3_concurrency_bound.2 2 [0, 1, 2, 3, 4] (by decide) (by decide)⟩

/-- Claim C4: along any trace of scheduler steps from a well-formed state,
if job A sits ahead of job B in the pending FIFO, then whenever B is
observed running at a later point, A was already running at that point or
earlier — pending jobs start in strict FIFO order (dispatch only ever
moves the FIFO head into the running set, and admissions only append). -/
theorem c4_fifo_start (tr : Nat → VideoGenerationQueue)
    (hstep : ∀ n, VideoGenerationQueue.QStep (tr n) (tr (n + 1)))
    (n : Nat) (hwf : VideoGenerationQueue.WF (tr n)) (A B : Nat)
    (hAB : List.Sublist [A, B] (tr n).queue)
    (m : Nat) (hnm : n ≤ m) (hB : B ∈ (tr m).running) :
    ∃ k, k ≤ m ∧ A ∈ (tr k).running := by
  have hInv : (VideoGenerationQueue.WF (tr m) ∧
      List.Sublist [A, B] (tr m).queue) ∨
      (∃ k, k ≤ m ∧ A ∈ (tr k).running) := by
    clear hB
    induction hnm with
    | refl => exact Or.inl ⟨hwf, hAB⟩
    | step hle ih =>
      rename_i m'
      rcases ih with ⟨hwf', hAB'⟩ | ⟨k, hk, hA⟩
      · rcases VideoGenerationQueue.qstep_sublist (tr m') (tr (m' + 1))
          (hstep m') A B hAB' with hsub | hA
        · exact Or.inl ⟨VideoGenerationQueue.qstep_WF (tr m') (tr (m' + 1))
            (hstep m') hwf', hsub⟩
        · exact Or.inr ⟨m' + 1, Nat.le_refl _, hA⟩
      · exact Or.inr ⟨k, Nat.le_succ_of_le hk, hA⟩
  rcases hInv with ⟨hwf', hsub⟩ | hdone
  · exfalso
    have hBq : B ∈ (tr m).queue := hsub.subset (by simp)
    exact hwf'.2 B hBq hB
  · exact hdone

theorem c4trace_steps :
    ∀ n, VideoGenerationQueue.QStep (c4trace n) (c4trace (n + 1)) := by
  intro n
  match n with
  | 0 => exact VideoGenerationQueue.QStep.enqueue _ 0 (by decide) (by decide)
  | 1 => exact VideoGenerationQueue.QStep.enqueue _ 1 (by decide) (by decide)
  | 2 => exact VideoGenerationQueue.QStep.enqueue _ 2 (by decide) (by decide)
  | 3 => exact VideoGenerationQueue.QStep.finish _ 0 (by decide)
  | 4 => exact VideoGenerationQueue.QStep.dispatch _
  | 5 => exact VideoGenerationQueue.QStep.finish _ 1 (by decide)
  | (k + 6) => exact VideoGenerationQueue.QStep.dispatch _

theorem c4_witness : ∃ k, k ≤ 7 ∧ 1 ∈ (c4trace k).running :=
  c4_fifo_start c4trace c4trace_steps 3 (by decide) 1 2
    (List.Sublist.refl [1, 2]) 7 (by decide) (by decide)

/-- Claim C8 counterexample: the scheduler exposes no `Remove(id)`; the
only removal the host offers is `handleDeleteJob`, which filters the UI
job card out of the React state and leaves the scheduler untouched, so a
"removed" job that is still pending is not dropped from the FIFO and
still transitions to running at the next dispatch: with job 5 pending
behind four running jobs, deleting it removes its UI card yet after job 1
finishes and the cooldown dispatch fires, job 5 is running. -/
theorem c8_counterexample :
    (handleDeleteJobApp appStateC8 5).queue = appStateC8.queue ∧
    (handleDeleteJobApp appStateC8 5).jobs = [] ∧
    5 ∈ (VideoGenerationQueue.processQueue
      (VideoGenerationQueue.finishJob
        (handleDeleteJobApp appStateC8 5).queue 1)).running := by
  refine ⟨rfl, rfl, by decide⟩

/-- Claim C8 (amended): the scheduler's public surface has no Remove; the
host-side delete action (`handleDeleteJob`) removes exactly the UI job
entries with the given id and never touches the scheduler state, so a
pending job survives the delete and still transitions to running once it
reaches the FIFO head with a slot free — the caller merely discards the
eventual result. -/
theorem c8_delete_is_ui_only :
    (∀ (st : AppUI) (jobId : Nat),
      (handleDeleteJobApp st jobId).queue = st.queue ∧
      ∀ j, j ∈ (handleDeleteJobApp st jobId).jobs ↔
        j ∈ st.jobs ∧ j.id ≠ jobId) ∧
    (∀ (qs : VideoGenerationQueue) (j : Nat) (rest : List Nat),
      qs.queue = j :: rest → qs.running.card < qs.maxConcurrent →
      j ∈ (VideoGenerationQueue.processQueue qs).running) := by
  constructor
  · intro st jobId
    refine ⟨rfl, ?_⟩
    intro j
    simp [handleDeleteJobApp, handleDeleteJob, List.mem_filter, bne_iff_ne]
  · intro qs j rest hq hcard
    unfold VideoGenerationQueue.processQueue
    rw [if_neg (by omega)]
    split
    · rename_i heq
      rw [hq] at heq
      exact absurd heq (by simp)
    · rename_i id rest' heq
      rw [hq] at heq
      injection heq with h1 h2
      subst h1
      exact Finset.mem_insert_self j _

theorem c8_witness :
    5 ∈ (VideoGenerationQueue.processQueue ⟨[5], {1, 2, 3}, 4⟩).running :=
  c8_delete_is_ui_only.2 ⟨[5], {1, 2, 3}, 4⟩ 5 [] rfl (by decide)
